import Mathlib

/-!
Swish terminal: job control and command execution.

A shallow embedding of `swish.c` and `swish_funcs.c`.

* String vectors (`strvec_t`) are `List String`; job lists (`job_list_t`) are
  `List job_t` in insertion order.
* C `int` / `pid_t` values are `Int`; comparisons with `-1` are kept as in the source.
* The operating system is an `Oracle` (the result of every call, indexed by the
  number of calls issued so far) and a `World` (the terminal's foreground process
  group and the trace of calls issued).  Diagnostics (`printf`, `perror`) are not
  part of the model; `getpid` cannot fail and is read from the oracle.
-/

set_option autoImplicit false

namespace Swish

/-! ## Data model -/

/-- Size of the `args` array of `run_command` (`#define MAX_ARGS 10`). -/
def MAX_ARGS : Nat := 10

/-- Job status, `job_status_t` of `job_list.h`. -/
inductive job_status_t where
  | JOB_BACKGROUND
  | JOB_STOPPED
  deriving DecidableEq, Repr

/-- Job record, `job_t` of `job_list.h` (the `next` pointer is the list structure). -/
structure job_t where
  name : String
  pid : Int
  status : job_status_t
  deriving DecidableEq, Repr

/-- Job list in insertion order. -/
abbrev job_list_t := List job_t

/-- Token vector of one command. -/
abbrev strvec_t := List String

/-- Decoded status word of `waitpid`: which of `WIFEXITED`, `WIFSIGNALED`,
`WIFSTOPPED` holds; `other` is a word for which none holds. -/
inductive WaitStatus where
  | exited (code : Nat)
  | signaled (sig : Nat)
  | stopped (sig : Nat)
  | other
  deriving DecidableEq, Repr

def WIFEXITED : WaitStatus → Bool
  | .exited _ => true
  | _ => false

def WIFSIGNALED : WaitStatus → Bool
  | .signaled _ => true
  | _ => false

def WIFSTOPPED : WaitStatus → Bool
  | .stopped _ => true
  | _ => false

/-- Flags of the three `open` calls of `run_command`. -/
inductive OpenMode where
  | rdonly
  | trunc
  | append
  deriving DecidableEq, Repr

/-- Signals named in the source. -/
inductive Signal where
  | SIGCONT
  | SIGTTIN
  | SIGTTOU
  deriving DecidableEq, Repr

/-- Calls to the operating system, with their arguments. -/
inductive SysCall where
  | sys_open (path : String) (mode : OpenMode)
  | sys_dup2 (fd target : Int)
  | sys_close (fd : Int)
  | sys_sigfillset
  | sys_sigaction (sig : Signal)
  | sys_setpgid (pid pgid : Int)
  | sys_execvp (file : Option String) (argv : List String)
  | sys_tcsetpgrp (pgrp : Int)
  | sys_kill (pid : Int) (sig : Signal)
  | sys_waitpid (pid : Int)
  | sys_fork
  deriving DecidableEq, Repr

/-- Results of the operating system calls; the index is the number of calls the
process has issued before this one. `waitpidRes k = none` is the `-1` return. -/
structure Oracle where
  getpid : Int
  openRes : Nat → Int
  dup2Res : Nat → Int
  sigfillsetRes : Nat → Int
  sigactionRes : Nat → Int
  setpgidRes : Nat → Int
  execvpFails : Nat → Bool
  tcsetpgrpRes : Nat → Int
  killRes : Nat → Int
  waitpidRes : Nat → Option WaitStatus
  forkRes : Nat → Int
  uninitStatus : WaitStatus

/-- Observable state outside the shell's memory. -/
structure World where
  termFg : Int
  trace : List SysCall
  deriving DecidableEq, Repr

/-- Record a call in the trace. -/
def World.log (w : World) (c : SysCall) : World :=
  { w with trace := w.trace ++ [c] }

def STDIN_FILENO : Int := 0
def STDOUT_FILENO : Int := 1

def c_open (o : Oracle) (w : World) (path : String) (mode : OpenMode) : Int × World :=
  (o.openRes w.trace.length, w.log (.sys_open path mode))

def c_dup2 (o : Oracle) (w : World) (fd target : Int) : Int × World :=
  (o.dup2Res w.trace.length, w.log (.sys_dup2 fd target))

def c_close (w : World) (fd : Int) : World :=
  w.log (.sys_close fd)

def c_sigfillset (o : Oracle) (w : World) : Int × World :=
  (o.sigfillsetRes w.trace.length, w.log .sys_sigfillset)

def c_sigaction (o : Oracle) (w : World) (sig : Signal) : Int × World :=
  (o.sigactionRes w.trace.length, w.log (.sys_sigaction sig))

def c_setpgid (o : Oracle) (w : World) (pid pgid : Int) : Int × World :=
  (o.setpgidRes w.trace.length, w.log (.sys_setpgid pid pgid))

/-- The call `tcsetpgrp(STDIN_FILENO, pgrp)`: on success the terminal's foreground
process group becomes `pgrp`. -/
def c_tcsetpgrp (o : Oracle) (w : World) (pgrp : Int) : Int × World :=
  let r := o.tcsetpgrpRes w.trace.length
  (r, { termFg := if r = -1 then w.termFg else pgrp,
        trace := w.trace ++ [.sys_tcsetpgrp pgrp] })

def c_kill (o : Oracle) (w : World) (pid : Int) (sig : Signal) : Int × World :=
  (o.killRes w.trace.length, w.log (.sys_kill pid sig))

/-- The call `waitpid(pid, &status, WUNTRACED)`. -/
def c_waitpid (o : Oracle) (w : World) (pid : Int) : Option WaitStatus × World :=
  (o.waitpidRes w.trace.length, w.log (.sys_waitpid pid))

def c_fork (o : Oracle) (w : World) : Int × World :=
  (o.forkRes w.trace.length, w.log .sys_fork)

/-! ## String vector and job list -/

/-- Modelled from the spec: `string_vector.c` is not among the sources. Locates a
token: the index of its first occurrence, `-1` when it does not occur. -/
def strvec_find : strvec_t → String → Int
  | [], _ => -1
  | t :: ts, s =>
    if t = s then 0
    else
      let r := strvec_find ts s
      if r = -1 then -1 else r + 1

/-- Modelled from the spec: `string_vector.c` is not among the sources. The token
at a position, `none` (the `NULL` return) outside `0..length-1`. -/
def strvec_get (tokens : strvec_t) (i : Int) : Option String :=
  if i < 0 then none else tokens.get? i.toNat

/-- Modelled from the spec: `string_vector.c` is not among the sources. Strips the
tokens from position `n` on (used to strip the trailing `&`). -/
def strvec_take (tokens : strvec_t) (n : Int) : strvec_t :=
  tokens.take n.toNat

/-- Modelled from the spec: `job_list.c` is not among the sources. Append a job
(name, pid, status): new job at the tail. -/
def job_list_add (jobs : job_list_t) (pid : Int) (name : String) (status : job_status_t) :
    Int × job_list_t :=
  (0, jobs ++ [{ name := name, pid := pid, status := status }])

/-- Modelled from the spec: `job_list.c` is not among the sources. Look up by
positional index: the job, or `none` (not found). -/
def job_list_get (jobs : job_list_t) (index : Int) : Option job_t :=
  if index < 0 then none else jobs.get? index.toNat

/-- Modelled from the spec: `job_list.c` is not among the sources. Remove by
positional index: removes and closes the gap; `-1` when there is no such job. -/
def job_list_remove (jobs : job_list_t) (index : Int) : Int × job_list_t :=
  if 0 ≤ index ∧ index.toNat < jobs.length then (0, jobs.eraseIdx index.toNat)
  else (-1, jobs)

/-- Modelled from the spec: `job_list.c` is not among the sources. Removes every
job whose status equals the given status, preserving the order of the others. -/
def job_list_remove_by_status (jobs : job_list_t) (status : job_status_t) : job_list_t :=
  jobs.filter (fun j => j.status ≠ status)

/-- The assignment `job->status = s` through the pointer returned by
`job_list_get jobs index`. -/
def job_set_status (jobs : job_list_t) (index : Int) (s : job_status_t) : job_list_t :=
  jobs.modify (fun j => { j with status := s }) index.toNat

/-! ## `atoi` -/

def isspace (c : Char) : Bool :=
  c.toNat = 32 ∨ (9 ≤ c.toNat ∧ c.toNat ≤ 13)

/-- Accumulate the leading decimal digits. -/
def atoi_digits : List Char → Int → Int
  | [], acc => acc
  | c :: cs, acc =>
    if 48 ≤ c.toNat ∧ c.toNat ≤ 57 then atoi_digits cs (acc * 10 + (c.toNat - 48 : Nat))
    else acc

/-- The value `strtol` returns for a parsed number: clamped to the range of a
64-bit `long` (`LONG_MIN`, `LONG_MAX`). -/
def clamp_long (x : Int) : Int :=
  if x < -9223372036854775808 then -9223372036854775808
  else if x > 9223372036854775807 then 9223372036854775807
  else x

/-- The conversion of a `long` to the 32-bit `int`: the value modulo `2^32`, in
`-2^31 .. 2^31 - 1`. -/
def int_of_long (x : Int) : Int :=
  (x + 2147483648) % 4294967296 - 2147483648

/-- The text-to-number part of `strtol(s, NULL, 10)`: leading white space, an
optional sign, decimal digits; `0` when there is no digit. -/
def parse_decimal (s : String) : Int :=
  match s.toList.dropWhile isspace with
  | [] => 0
  | c :: cs =>
    if c.toNat = 45 then - atoi_digits cs 0
    else if c.toNat = 43 then atoi_digits cs 0
    else atoi_digits (c :: cs) 0

/-- The C library `atoi` as the source uses it, `int index = atoi(...)`: the
result of `strtol(s, NULL, 10)` (clamped to `long`) converted to the 32-bit `int`,
so `4294967296` gives `0` and `2147483648` gives `-2147483648`. -/
def atoi (s : String) : Int :=
  int_of_long (clamp_long (parse_decimal s))

/-! ## `run_command` (swish_funcs.c, lines 36-135) -/

/-- How a call of `run_command` ends. -/
inductive Outcome where
  /-- The function returns this value. -/
  | returned (r : Int)
  /-- The call `execvp` succeeded: the process image is replaced. -/
  | replaced
  /-- A store outside the `MAX_ARGS` slots of `args`: undefined behaviour. -/
  | undefined
  deriving DecidableEq, Repr

/-- The local array `char *args[MAX_ARGS]` and the indices stored to, in order. -/
structure ArgsState where
  args : List (Option String)
  stores : List Nat
  deriving DecidableEq, Repr

/-- The array before the loop: `MAX_ARGS` slots, none of them written. -/
def ArgsState.init : ArgsState :=
  { args := List.replicate MAX_ARGS none, stores := [] }

/-- The assignment `args[i] = v`. -/
def ArgsState.store (a : ArgsState) (i : Nat) (v : Option String) : ArgsState :=
  { args := a.args.set i v, stores := a.stores ++ [i] }

/-- Every store so far was inside the array. -/
def ArgsState.inBounds (a : ArgsState) : Bool :=
  a.stores.all (fun i => decide (i < MAX_ARGS))

/-- What `execvp` reads from `args`: the pointers before the first `NULL`. -/
def read_argv : List (Option String) → List String
  | some s :: rest => s :: read_argv rest
  | _ => []

structure CmdResult where
  outcome : Outcome
  world : World
  args : ArgsState
  deriving DecidableEq, Repr

/-- Lines 40-58: input redirection. `Except.error` is the `return 1`. -/
def redirect_input (o : Oracle) (w : World) (tokens : strvec_t) (arg_index : Int) :
    Except World (Int × World) :=
  let current := strvec_find tokens "<"
  if current ≥ 0 then
    match strvec_get tokens (current + 1) with
    | none => .error w
    | some input_file =>
      let r := c_open o w input_file .rdonly
      if r.1 = -1 then .error r.2
      else
        let d := c_dup2 o r.2 r.1 STDIN_FILENO
        if d.1 = -1 then .error (c_close d.2 r.1)
        else .ok (current, c_close d.2 r.1)
  else .ok (arg_index, w)

/-- Lines 61-79 and 82-100: the body shared by the `>` and the `>>` branch, which
differ in the flag `O_TRUNC` / `O_APPEND` only. -/
def open_output (o : Oracle) (w : World) (tokens : strvec_t) (current : Int)
    (mode : OpenMode) (arg_index : Int) : Except World (Int × World) :=
  match strvec_get tokens (current + 1) with
  | none => .error w
  | some output_file =>
    let r := c_open o w output_file mode
    if r.1 = -1 then .error r.2
    else
      let d := c_dup2 o r.2 r.1 STDOUT_FILENO
      if d.1 = -1 then .error (c_close d.2 r.1)
      else .ok (if current < arg_index then current else arg_index, c_close d.2 r.1)

/-- Lines 60-101: output redirection, `>` first, `>>` in the `else if`. -/
def redirect_output (o : Oracle) (w : World) (tokens : strvec_t) (arg_index : Int) :
    Except World (Int × World) :=
  if strvec_find tokens ">" ≥ 0 then
    open_output o w tokens (strvec_find tokens ">") .trunc arg_index
  else if strvec_find tokens ">>" ≥ 0 then
    open_output o w tokens (strvec_find tokens ">>") .append arg_index
  else .ok (arg_index, w)

/-- Lines 103-119: default disposition for `SIGTTIN`, `SIGTTOU`; own process group. -/
def reset_signals (o : Oracle) (w : World) : Except World World :=
  let f := c_sigfillset o w
  if f.1 = -1 then .error f.2
  else
    let s1 := c_sigaction o f.2 .SIGTTIN
    if s1.1 = -1 then .error s1.2
    else
      let s2 := c_sigaction o s1.2 .SIGTTOU
      if s2.1 = -1 then .error s2.2
      else
        let g := c_setpgid o s2.2 o.getpid o.getpid
        if g.1 = -1 then .error g.2 else .ok g.2

/-- Lines 123-128: the loop `for(i=0; i<arg_index; i++)`, with `n` iterations left
and `i` the loop variable. `Except.error` is the `return 1` inside the loop. -/
def fill_args (tokens : strvec_t) : Nat → Nat → ArgsState → Except ArgsState (Nat × ArgsState)
  | 0, i, a => .ok (i, a)
  | n + 1, i, a =>
    match strvec_get tokens i with
    | none => .error (a.store i none)
    | some t => fill_args tokens n (i + 1) (a.store i (some t))

/-- Lines 121-134: build `args`, store the sentinel, call `execvp`. -/
def exec_args (o : Oracle) (w : World) (tokens : strvec_t) (arg_index : Int) : CmdResult :=
  match fill_args tokens arg_index.toNat 0 ArgsState.init with
  | .error a =>
    { outcome := if a.inBounds then .returned 1 else .undefined, world := w, args := a }
  | .ok (i, a) =>
    let a1 := a.store i none
    if a1.inBounds then
      { outcome := if o.execvpFails w.trace.length then .returned 0 else .replaced,
        world := w.log (.sys_execvp tokens.head? (read_argv a1.args)),
        args := a1 }
    else { outcome := .undefined, world := w, args := a1 }

/-- The function `run_command`. -/
def run_command (o : Oracle) (w : World) (tokens : strvec_t) : CmdResult :=
  match redirect_input o w tokens tokens.length with
  | .error w1 => { outcome := .returned 1, world := w1, args := ArgsState.init }
  | .ok (arg_index, w1) =>
    match redirect_output o w1 tokens arg_index with
    | .error w2 => { outcome := .returned 1, world := w2, args := ArgsState.init }
    | .ok (arg_index, w2) =>
      match reset_signals o w2 with
      | .error w3 => { outcome := .returned 1, world := w3, args := ArgsState.init }
      | .ok w3 => exec_args o w3 tokens arg_index

/-! ## Job control (swish_funcs.c, lines 137-228) -/

structure JobResult where
  ret : Int
  jobs : job_list_t
  world : World
  deriving DecidableEq, Repr

/-- The function `resume_job`; `none` when there is no `tokens->data[1]` to read. -/
def resume_job (o : Oracle) (w : World) (tokens : strvec_t) (jobs : job_list_t)
    (is_foreground : Int) : Option JobResult :=
  match tokens.get? 1 with
  | none => none
  | some arg =>
    let index := atoi arg
    match job_list_get jobs index with
    | none => some { ret := -1, jobs := jobs, world := w }
    | some job =>
      let pid := job.pid
      if is_foreground ≠ 0 then
        let t := c_tcsetpgrp o w pid
        if t.1 = -1 then some { ret := -1, jobs := jobs, world := t.2 }
        else
          let k := c_kill o t.2 pid .SIGCONT
          if k.1 = -1 then some { ret := -1, jobs := jobs, world := k.2 }
          else
            let wt := c_waitpid o k.2 pid
            match wt.1 with
            | none => some { ret := -1, jobs := jobs, world := wt.2 }
            | some status =>
              let rm : Int × job_list_t :=
                if WIFEXITED status || WIFSIGNALED status then job_list_remove jobs index
                else (0, jobs)
              if rm.1 = -1 then some { ret := -1, jobs := rm.2, world := wt.2 }
              else
                let t2 := c_tcsetpgrp o wt.2 o.getpid
                if t2.1 = -1 then some { ret := -1, jobs := rm.2, world := t2.2 }
                else some { ret := 0, jobs := rm.2, world := t2.2 }
      else
        let jobs1 := job_set_status jobs index .JOB_BACKGROUND
        let k := c_kill o w pid .SIGCONT
        if k.1 = -1 then some { ret := -1, jobs := jobs1, world := k.2 }
        else some { ret := 0, jobs := jobs1, world := k.2 }

/-- The function `await_background_job`; `none` when there is no `tokens->data[1]`. -/
def await_background_job (o : Oracle) (w : World) (tokens : strvec_t) (jobs : job_list_t) :
    Option JobResult :=
  match tokens.get? 1 with
  | none => none
  | some arg =>
    let index := atoi arg
    match job_list_get jobs index with
    | none => some { ret := -1, jobs := jobs, world := w }
    | some job =>
      if job.status = .JOB_BACKGROUND then
        let wt := c_waitpid o w job.pid
        match wt.1 with
        | none => some { ret := -1, jobs := jobs, world := wt.2 }
        | some status =>
          if WIFEXITED status then
            let rm := job_list_remove jobs index
            if rm.1 = -1 then some { ret := -1, jobs := rm.2, world := wt.2 }
            else some { ret := 0, jobs := rm.2, world := wt.2 }
          else some { ret := 0, jobs := jobs, world := wt.2 }
      else some { ret := -1, jobs := jobs, world := w }

/-- Lines 210-223: the walk `ptr = jobs->head; while(ptr != NULL)`. The result is
the return value so far (`-1` after a failed `waitpid`), the list with the
statuses assigned through `ptr`, and the world. -/
def await_all_walk (o : Oracle) : World → List job_t → Int × List job_t × World
  | w, [] => (0, [], w)
  | w, j :: rest =>
    if j.status = .JOB_BACKGROUND then
      match (c_waitpid o w j.pid).1 with
      | none => (-1, j :: rest, (c_waitpid o w j.pid).2)
      | some status =>
        let t := await_all_walk o (c_waitpid o w j.pid).2 rest
        ((t.1, (if WIFSTOPPED status then { j with status := .JOB_STOPPED } else j) :: t.2.1,
          t.2.2))
    else
      let t := await_all_walk o w rest
      (t.1, j :: t.2.1, t.2.2)

/-- The function `await_all_background_jobs`. -/
def await_all_background_jobs (o : Oracle) (w : World) (jobs : job_list_t) : JobResult :=
  let t := await_all_walk o w jobs
  if t.1 = -1 then { ret := -1, jobs := t.2.1, world := t.2.2 }
  else { ret := 0, jobs := job_list_remove_by_status t.2.1 .JOB_BACKGROUND, world := t.2.2 }

/-! ## Launching a command (swish.c, lines 139-176) -/

/-- What the last branch of the loop of `main` leaves behind. -/
inductive LaunchResult where
  /-- The shell (fork failed, or the parent after placement). -/
  | shell (jobs : job_list_t) (world : World)
  /-- The child: what `run_command` did; if it returns, `main` returns 1. -/
  | child (r : CmdResult)
  deriving DecidableEq, Repr

/-- The `else` branch of the dispatch in `main`, for a non-empty token vector
(`first_token` and `last_token` are read at lines 55-56, before the branch; the
name recorded in the job is the text of the first token). `oc` is the oracle of
the child process, `o` the oracle of the shell. -/
def main_launch (o oc : Oracle) (w : World) (jobs : job_list_t) (tokens : strvec_t) :
    Option LaunchResult :=
  match strvec_get tokens 0, strvec_get tokens ((tokens.length : Int) - 1) with
  | some first_token, some last_token =>
    let background : Bool := decide (last_token = "&")
    let tokens1 := if background then strvec_take tokens ((tokens.length : Int) - 1) else tokens
    let f := c_fork o w
    if f.1 = -1 then some (.shell jobs f.2)
    else if f.1 = 0 then some (.child (run_command oc f.2 tokens1))
    else
      if background then
        some (.shell (job_list_add jobs f.1 first_token .JOB_BACKGROUND).2 f.2)
      else
        let t := c_tcsetpgrp o f.2 f.1
        let wt := c_waitpid o t.2 f.1
        let status := match wt.1 with
          | none => o.uninitStatus
          | some s => s
        let t2 := c_tcsetpgrp o wt.2 o.getpid
        if WIFSTOPPED status then
          some (.shell (job_list_add jobs f.1 first_token .JOB_STOPPED).2 t2.2)
        else some (.shell jobs t2.2)
  | _, _ => none

/-- An oracle under which every call succeeds: descriptors from 3 up, the child
of `fork` is 100, every wait reports the given status. -/
def okOracle (status : WaitStatus) : Oracle :=
  { getpid := 1, openRes := fun _ => 3, dup2Res := fun _ => 0, sigfillsetRes := fun _ => 0,
    sigactionRes := fun _ => 0, setpgidRes := fun _ => 0, execvpFails := fun _ => false,
    tcsetpgrpRes := fun _ => 0, killRes := fun _ => 0, waitpidRes := fun _ => some status,
    forkRes := fun _ => 100, uninitStatus := .other }

/-- The world at a prompt: the shell (pid 1) owns the terminal, nothing issued. -/
def w0 : World := { termFg := 1, trace := [] }

/-- Oracle of the failing `fg`: as `okOracle`, but `waitpid` returns `-1`. -/
def waitFailOracle : Oracle :=
  { okOracle .other with waitpidRes := fun _ => none }

/-- Oracle of the failing `fg`: as `okOracle`, but `kill` returns `-1`. -/
def killFailOracle : Oracle :=
  { okOracle .other with killRes := fun _ => -1 }

/-! ## Lemmas on the token vector and on the `args` loop -/

/-- Position of the first occurrence of a token; the length when it does not occur. -/
def first_pos (tokens : strvec_t) (s : String) : Nat :=
  (tokens.takeWhile (fun t => !decide (t = s))).length

theorem first_pos_le (tokens : strvec_t) (s : String) : first_pos tokens s ≤ tokens.length := by
  induction tokens with
  | nil => simp [first_pos]
  | cons t ts ih =>
    unfold first_pos at ih ⊢
    by_cases h : t = s
    · simp [List.takeWhile, h]
    · simp [List.takeWhile, h]
      exact ih

theorem first_pos_not_mem (tokens : strvec_t) (s : String) (h : s ∉ tokens) :
    first_pos tokens s = tokens.length := by
  induction tokens with
  | nil => simp [first_pos]
  | cons t ts ih =>
    have h1 : t ≠ s := fun e => h (by simp [e])
    have h2 : s ∉ ts := fun e => h (by simp [e])
    have := ih h2
    unfold first_pos at this ⊢
    simp [List.takeWhile, h1, this]

theorem strvec_find_eq (tokens : strvec_t) (s : String) :
    strvec_find tokens s = if s ∈ tokens then (first_pos tokens s : Int) else -1 := by
  induction tokens with
  | nil => simp [strvec_find]
  | cons t ts ih =>
    by_cases h : t = s
    · simp [strvec_find, h, first_pos, List.takeWhile]
    · have hs : ¬ s = t := fun e => h e.symm
      by_cases hm : s ∈ ts
      · have hp : first_pos (t :: ts) s = first_pos ts s + 1 := by
          simp [first_pos, List.takeWhile, h]
        have hne : ((first_pos ts s : Nat) : Int) ≠ -1 := by omega
        simp only [strvec_find, h, if_false, ih, hm, if_true, hne, List.mem_cons, hs,
          false_or, hp]
        push_cast
        rfl
      · simp [strvec_find, h, ih, hm, hs]

/-- The value `arg_index` would have if only the operator `s` were looked for. -/
theorem strvec_find_nonneg_iff (tokens : strvec_t) (s : String) :
    strvec_find tokens s ≥ 0 ↔ s ∈ tokens := by
  rw [strvec_find_eq]
  by_cases h : s ∈ tokens
  · simp [h]
  · simp [h]

theorem take_min_takeWhile (l : strvec_t) (p q : String → Bool) :
    l.take (min (l.takeWhile p).length (l.takeWhile q).length) =
      l.takeWhile (fun t => p t && q t) := by
  induction l with
  | nil => simp
  | cons x xs ih =>
    cases hp : p x <;> cases hq : q x <;> simp [List.takeWhile, hp, hq]
    have hm : ∀ a b : Nat, min (a + 1) (b + 1) = min a b + 1 := by
      intro a b
      omega
    rw [hm, List.take_succ_cons, ih]

theorem strvec_get_natCast (tokens : strvec_t) (i : Nat) :
    strvec_get tokens (i : Int) = tokens.get? i := by
  simp [strvec_get]

theorem set_after_prefix (P : List (Option String)) (m : Nat) (v : Option String)
    (hm : 0 < m) :
    (P ++ List.replicate m none).set P.length v = P ++ v :: List.replicate (m - 1) none := by
  obtain ⟨k, rfl⟩ : ∃ k, m = k + 1 := ⟨m - 1, by omega⟩
  simp [List.replicate_succ]

theorem read_argv_prefix (l : List String) (R : List (Option String)) :
    read_argv (l.map some ++ none :: R) = l := by
  induction l with
  | nil => simp [read_argv]
  | cons x xs ih => simp [read_argv, ih]

/-- The loop of `run_command` on a cut point inside the vector: it ends normally
after `n` iterations, having stored at the indices `i, ..., i+n-1`; while inside
the array, the slots hold the tokens before the loop variable. -/
theorem fill_args_ok (tokens : strvec_t) (n : Nat) :
    ∀ (i : Nat) (a : ArgsState), i + n ≤ tokens.length →
      ∃ a1, fill_args tokens n i a = .ok (i + n, a1) ∧
        a1.stores = a.stores ++ List.range' i n ∧
        (a.args = (tokens.take i).map some ++ List.replicate (MAX_ARGS - i) none →
          i + n ≤ MAX_ARGS →
          a1.args = (tokens.take (i + n)).map some ++
            List.replicate (MAX_ARGS - (i + n)) none) := by
  induction n with
  | zero =>
    intro i a _
    exact ⟨a, by simp [fill_args], by simp, fun h _ => by simpa using h⟩
  | succ n ih =>
    intro i a h
    have hi : i < tokens.length := by omega
    have hg : strvec_get tokens (i : Int) = some tokens[i] := by
      rw [strvec_get_natCast]
      exact List.get?_eq_get hi
    obtain ⟨a1, h1, h2, h3⟩ := ih (i + 1) (a.store i (some tokens[i])) (by omega)
    refine ⟨a1, ?_, ?_, ?_⟩
    · simp only [fill_args, hg]
      rw [h1]
      congr 2
      omega
    · rw [h2]
      simp [ArgsState.store, List.range'_succ]
    · intro ha hb
      have hlen : ((tokens.take i).map some).length = i := by
        simp
        omega
      have hset : (a.store i (some tokens[i])).args =
          (tokens.take (i + 1)).map some ++ List.replicate (MAX_ARGS - (i + 1)) none := by
        have := set_after_prefix ((tokens.take i).map some) (MAX_ARGS - i) (some tokens[i])
          (by omega)
        rw [hlen] at this
        have ht : tokens.take (i + 1) = tokens.take i ++ [tokens[i]] :=
          (List.take_concat_get' tokens i hi).symm
        simp only [ArgsState.store, ha, this]
        rw [ht, List.map_append, List.append_assoc, Nat.sub_sub]
        rfl
      have := h3 hset (by omega)
      rw [this]
      congr 3 <;> omega

/-- The last stage of `run_command` on a cut point `n` inside the vector. -/
theorem exec_args_stores (o : Oracle) (w : World) (tokens : strvec_t) (n : Nat)
    (h : n ≤ tokens.length) :
    (exec_args o w tokens (n : Int)).args.stores = List.range (n + 1) := by
  obtain ⟨a1, h1, h2, _⟩ := fill_args_ok tokens n 0 ArgsState.init (by omega)
  simp only [Nat.zero_add] at h1
  simp only [exec_args, Int.toNat_ofNat, h1]
  have hs : (a1.store n none).stores = List.range (n + 1) := by
    simp [ArgsState.store, h2, ArgsState.init, List.range_eq_range', List.range'_concat]
  split <;> exact hs

theorem range_succ_inBounds (n : Nat) :
    (List.range (n + 1)).all (fun i => decide (i < MAX_ARGS)) = true ↔ n < MAX_ARGS := by
  simp only [List.all_eq_true, List.mem_range, decide_eq_true_eq]
  constructor
  · intro h
    exact h n (by omega)
  · intro h x hx
    omega

theorem exec_args_inside (o : Oracle) (w : World) (tokens : strvec_t) (n : Nat)
    (h : n ≤ tokens.length) (hn : n < MAX_ARGS) :
    (exec_args o w tokens (n : Int)).outcome =
        (if o.execvpFails w.trace.length then .returned 0 else .replaced) ∧
      (exec_args o w tokens (n : Int)).world =
        w.log (.sys_execvp tokens.head? (tokens.take n)) := by
  obtain ⟨a1, h1, h2, h3⟩ := fill_args_ok tokens n 0 ArgsState.init (by omega)
  simp only [Nat.zero_add] at h1 h3
  have hs : (a1.store n none).stores = List.range (n + 1) := by
    simp [ArgsState.store, h2, ArgsState.init, List.range_eq_range', List.range'_concat]
  have hb : (a1.store n none).inBounds = true := by
    unfold ArgsState.inBounds
    rw [hs]
    exact (range_succ_inBounds n).mpr hn
  have ha := h3 (by simp [ArgsState.init]) (by omega)
  have hlen : ((tokens.take n).map some).length = n := by
    simp
    omega
  have hargs : (a1.store n none).args =
      (tokens.take n).map some ++ none :: List.replicate (MAX_ARGS - n - 1) none := by
    have := set_after_prefix ((tokens.take n).map some) (MAX_ARGS - n) none (by omega)
    rw [hlen] at this
    simp only [ArgsState.store, ha, this]
  simp only [exec_args, Int.toNat_ofNat, h1, hb, if_true, hargs, read_argv_prefix]
  simp

theorem exec_args_outside (o : Oracle) (w : World) (tokens : strvec_t) (n : Nat)
    (h : n ≤ tokens.length) (hn : ¬ n < MAX_ARGS) :
    (exec_args o w tokens (n : Int)).outcome = .undefined ∧
      (exec_args o w tokens (n : Int)).world = w := by
  obtain ⟨a1, h1, h2, _⟩ := fill_args_ok tokens n 0 ArgsState.init (by omega)
  simp only [Nat.zero_add] at h1
  have hs : (a1.store n none).stores = List.range (n + 1) := by
    simp [ArgsState.store, h2, ArgsState.init, List.range_eq_range', List.range'_concat]
  have hb : (a1.store n none).inBounds = false := by
    unfold ArgsState.inBounds
    rw [hs]
    rw [Bool.eq_false_iff]
    intro hc
    exact hn ((range_succ_inBounds n).mp hc)
  simp only [exec_args, Int.toNat_ofNat, h1, hb]
  simp

/-! ## Lemmas on the stages of `run_command` -/

/-- A redirection operator. -/
def is_redirect (t : String) : Bool :=
  decide (t = "<") || decide (t = ">") || decide (t = ">>")

/-- The output operator `run_command` acts on: `>` when the vector has one (line
60), `>>` otherwise (line 81). -/
def honored_op (tokens : strvec_t) : String :=
  if strvec_find tokens ">" ≥ 0 then ">" else ">>"

/-- The argument vector of the last call issued, when that call is `execvp`. -/
def exec_argv (r : CmdResult) : Option (List String) :=
  match r.world.trace.getLast? with
  | some (.sys_execvp _ argv) => some argv
  | _ => none

/-- The files opened for writing in a trace, with their mode, in order. -/
def out_opens (tr : List SysCall) : List (String × OpenMode) :=
  tr.filterMap (fun c =>
    match c with
    | .sys_open p .trunc => some (p, .trunc)
    | .sys_open p .append => some (p, .append)
    | _ => none)

theorem redirect_input_cut (o : Oracle) (w w1 : World) (tokens : strvec_t) (k : Int)
    (h : redirect_input o w tokens tokens.length = .ok (k, w1)) :
    k = (first_pos tokens "<" : Int) := by
  unfold redirect_input at h
  by_cases hm : "<" ∈ tokens
  · have hf : strvec_find tokens "<" = (first_pos tokens "<" : Int) := by
      rw [strvec_find_eq]
      simp [hm]
    rw [hf] at h
    have h0 : ((first_pos tokens "<" : Nat) : Int) ≥ 0 := by omega
    simp only [h0, if_true] at h
    split at h
    · simp at h
    · split at h
      · simp at h
      · split at h
        · simp at h
        · simp only [Except.ok.injEq, Prod.mk.injEq] at h
          exact h.1.symm
  · have hf : ¬ strvec_find tokens "<" ≥ 0 := by
      rw [strvec_find_nonneg_iff]
      exact hm
    simp only [hf, if_false, Except.ok.injEq, Prod.mk.injEq] at h
    rw [first_pos_not_mem tokens "<" hm]
    exact h.1.symm

theorem open_output_cut (o : Oracle) (w w2 : World) (tokens : strvec_t) (cur k1 k : Int)
    (mode : OpenMode) (h : open_output o w tokens cur mode k1 = .ok (k, w2)) :
    k = min k1 cur := by
  unfold open_output at h
  cases hg : strvec_get tokens (cur + 1) with
  | none => simp [hg] at h
  | some f =>
    simp only [hg] at h
    by_cases h1 : (c_open o w f mode).1 = -1
    · simp [h1] at h
    · by_cases h2 : (c_dup2 o (c_open o w f mode).2 (c_open o w f mode).1 STDOUT_FILENO).1 = -1
      · simp [h1, h2] at h
      · simp only [h1, h2, if_false, Except.ok.injEq, Prod.mk.injEq] at h
        rw [← h.1]
        split <;> omega

theorem redirect_output_cut (o : Oracle) (w w2 : World) (tokens : strvec_t) (k1 k : Int)
    (hk1 : k1 ≤ tokens.length)
    (h : redirect_output o w tokens k1 = .ok (k, w2)) :
    k = min k1 (first_pos tokens (honored_op tokens) : Int) := by
  unfold redirect_output at h
  unfold honored_op
  by_cases hgt : strvec_find tokens ">" ≥ 0
  · simp only [hgt, if_true] at h ⊢
    have := open_output_cut _ _ _ _ _ _ _ _ h
    rw [this, strvec_find_eq, if_pos ((strvec_find_nonneg_iff _ _).mp hgt)]
  · simp only [hgt, if_false] at h ⊢
    by_cases hap : strvec_find tokens ">>" ≥ 0
    · simp only [hap, if_true] at h
      have := open_output_cut _ _ _ _ _ _ _ _ h
      rw [this, strvec_find_eq, if_pos ((strvec_find_nonneg_iff _ _).mp hap)]
    · simp only [hap, if_false, Except.ok.injEq, Prod.mk.injEq] at h
      have hn : ">>" ∉ tokens := fun e => hap ((strvec_find_nonneg_iff _ _).mpr e)
      rw [first_pos_not_mem tokens ">>" hn, ← h.1]
      omega

/-- The value of `arg_index` when the loop of `run_command` starts: the earlier of
the first `<` and the first occurrence of the output operator acted on. -/
def cut_point (tokens : strvec_t) : Nat :=
  min (first_pos tokens "<") (first_pos tokens (honored_op tokens))

theorem cut_point_le (tokens : strvec_t) : cut_point tokens ≤ tokens.length := by
  unfold cut_point
  have := first_pos_le tokens "<"
  omega

/-- Either a stage before the loop returns 1, or `run_command` is its last stage
run on the cut point. -/
theorem run_command_stages (o : Oracle) (w : World) (tokens : strvec_t) :
    (run_command o w tokens).outcome = .returned 1 ∨
      ∃ w3, run_command o w tokens = exec_args o w3 tokens (cut_point tokens : Int) := by
  cases h1 : redirect_input o w tokens tokens.length with
  | error w1 =>
    left
    simp only [run_command, h1]
  | ok r1 =>
    obtain ⟨k1, w1⟩ := r1
    have e1 := redirect_input_cut o w w1 tokens k1 h1
    cases h2 : redirect_output o w1 tokens k1 with
    | error w2 =>
      left
      simp only [run_command, h1, h2]
    | ok r2 =>
      obtain ⟨k, w2⟩ := r2
      have hk1 : k1 ≤ tokens.length := by
        have := first_pos_le tokens "<"
        omega
      have e2 := redirect_output_cut o w1 w2 tokens k1 k hk1 h2
      cases h3 : reset_signals o w2 with
      | error w3 =>
        left
        simp only [run_command, h1, h2, h3]
      | ok w3 =>
        refine Or.inr ⟨w3, ?_⟩
        have : k = (cut_point tokens : Int) := by
          rw [e2, e1]
          unfold cut_point
          omega
        simp only [run_command, h1, h2, h3, this]

/-! ### Files opened for writing, stage by stage -/

theorem out_opens_append (a b : List SysCall) :
    out_opens (a ++ b) = out_opens a ++ out_opens b := by
  simp [out_opens]

theorem redirect_input_opens (o : Oracle) (w : World) (tokens : strvec_t) (a : Int) :
    (∀ k w1, redirect_input o w tokens a = .ok (k, w1) →
      out_opens w1.trace = out_opens w.trace) ∧
    (∀ w1, redirect_input o w tokens a = .error w1 →
      out_opens w1.trace = out_opens w.trace) := by
  constructor
  · intro k w1 h
    simp only [redirect_input] at h
    repeat' split at h
    all_goals first
      | (simp at h; done)
      | (simp only [Except.ok.injEq, Prod.mk.injEq] at h
         obtain ⟨_, h⟩ := h
         subst h
         simp [out_opens, c_close, c_dup2, c_open, World.log])
  · intro w1 h
    simp only [redirect_input] at h
    repeat' split at h
    all_goals first
      | (simp at h; done)
      | (simp only [Except.error.injEq] at h
         subst h
         simp [out_opens, c_close, c_dup2, c_open, World.log])

theorem open_output_opens (o : Oracle) (w : World) (tokens : strvec_t) (cur a : Int)
    (f : String) (hf : strvec_get tokens (cur + 1) = some f) :
    (∀ k w1, open_output o w tokens cur .trunc a = .ok (k, w1) →
      out_opens w1.trace = out_opens w.trace ++ [(f, .trunc)]) ∧
    (∀ w1, open_output o w tokens cur .trunc a = .error w1 →
      out_opens w1.trace = out_opens w.trace ++ [(f, .trunc)]) := by
  constructor
  · intro k w1 h
    simp only [open_output, hf] at h
    by_cases h1 : (c_open o w f .trunc).1 = -1
    · simp [h1] at h
    · by_cases h2 : (c_dup2 o (c_open o w f .trunc).2 (c_open o w f .trunc).1
          STDOUT_FILENO).1 = -1
      · simp [h1, h2] at h
      · simp only [h1, h2, if_false, Except.ok.injEq, Prod.mk.injEq] at h
        rw [← h.2]
        simp [out_opens, c_close, c_dup2, c_open, World.log]
  · intro w1 h
    simp only [open_output, hf] at h
    by_cases h1 : (c_open o w f .trunc).1 = -1
    · simp only [h1, if_true, Except.error.injEq] at h
      rw [← h]
      simp [out_opens, c_open, World.log]
    · by_cases h2 : (c_dup2 o (c_open o w f .trunc).2 (c_open o w f .trunc).1
          STDOUT_FILENO).1 = -1
      · simp only [h1, h2, if_false, if_true, Except.error.injEq] at h
        rw [← h]
        simp [out_opens, c_close, c_dup2, c_open, World.log]
      · simp [h1, h2] at h

theorem reset_signals_opens (o : Oracle) (w : World) :
    (∀ w1, reset_signals o w = .ok w1 → out_opens w1.trace = out_opens w.trace) ∧
    (∀ w1, reset_signals o w = .error w1 → out_opens w1.trace = out_opens w.trace) := by
  constructor
  · intro w1 h
    simp only [reset_signals] at h
    repeat' split at h
    all_goals first
      | (simp at h; done)
      | (simp only [Except.ok.injEq] at h
         subst h
         simp [out_opens, c_sigfillset, c_sigaction, c_setpgid, World.log])
  · intro w1 h
    simp only [reset_signals] at h
    repeat' split at h
    all_goals first
      | (simp at h; done)
      | (simp only [Except.error.injEq] at h
         subst h
         simp [out_opens, c_sigfillset, c_sigaction, c_setpgid, World.log])

theorem exec_args_opens (o : Oracle) (w : World) (tokens : strvec_t) (k : Int) :
    out_opens (exec_args o w tokens k).world.trace = out_opens w.trace := by
  simp only [exec_args]
  split
  · rfl
  · by_cases hb : (ArgsState.store ‹ArgsState› ‹Nat› none).inBounds = true
    · simp [hb, out_opens, World.log]
    · simp [hb]

/-- Following the spec's words (redirection exclusivity: "as if only the
first-encountered operator were present"): the filename after whichever of `>`
and `>>` occurs first in the sequence, with truncate mode for `>` and append mode
for `>>`. -/
def spec_first_encountered_output : strvec_t → Option (String × OpenMode)
  | [] => none
  | t :: ts =>
    if t = ">" then ts.head?.map (fun f => (f, OpenMode.trunc))
    else if t = ">>" then ts.head?.map (fun f => (f, OpenMode.append))
    else spec_first_encountered_output ts

/-! ### `wait-all` -/

/-- Following the spec's words (wait-for-all): what the list is afterwards, told
job by job in insertion order, `n` being the number of calls issued so far. A
Stopped job is kept as it is and not waited for; a Background job is waited for
and is kept, as Stopped, exactly when its wait reports a stop. -/
def spec_wait_all (o : Oracle) : Nat → List job_t → List job_t
  | _, [] => []
  | n, j :: rest =>
    if j.status = .JOB_STOPPED then j :: spec_wait_all o n rest
    else
      match o.waitpidRes n with
      | some (.stopped _) => { j with status := .JOB_STOPPED } :: spec_wait_all o (n + 1) rest
      | _ => spec_wait_all o (n + 1) rest

theorem spec_wait_all_stopped (o : Oracle) (jobs : List job_t) :
    ∀ n, ∀ j ∈ spec_wait_all o n jobs, j.status = .JOB_STOPPED := by
  induction jobs with
  | nil => simp [spec_wait_all]
  | cons x xs ih =>
    intro n j hj
    unfold spec_wait_all at hj
    split at hj
    · rcases List.mem_cons.mp hj with e | e
      · rw [e]
        assumption
      · exact ih n j e
    · split at hj
      · rcases List.mem_cons.mp hj with e | e
        · rw [e]
        · exact ih (n + 1) j e
      · exact ih (n + 1) j hj

theorem spec_wait_all_sublist (o : Oracle) (jobs : List job_t) :
    ∀ n, ((spec_wait_all o n jobs).map (fun j => (j.name, j.pid))).Sublist
      (jobs.map (fun j => (j.name, j.pid))) := by
  induction jobs with
  | nil => simp [spec_wait_all]
  | cons x xs ih =>
    intro n
    unfold spec_wait_all
    split
    · simp only [List.map_cons]
      exact (ih n).cons₂ _
    · split
      · simp only [List.map_cons]
        exact (ih (n + 1)).cons₂ _
      · simp only [List.map_cons]
        exact (ih (n + 1)).cons _

theorem spec_wait_all_keeps_stopped (o : Oracle) (jobs : List job_t) :
    ∀ n, (jobs.filter (fun j => decide (j.status = .JOB_STOPPED))).Sublist
      (spec_wait_all o n jobs) := by
  induction jobs with
  | nil => simp [spec_wait_all]
  | cons x xs ih =>
    intro n
    unfold spec_wait_all
    by_cases hx : x.status = .JOB_STOPPED
    · have hf : (x :: xs).filter (fun j => decide (j.status = .JOB_STOPPED)) =
          x :: xs.filter (fun j => decide (j.status = .JOB_STOPPED)) := by
        simp [List.filter_cons, hx]
      rw [hf, if_pos hx]
      exact (ih n).cons₂ _
    · have hf : (x :: xs).filter (fun j => decide (j.status = .JOB_STOPPED)) =
          xs.filter (fun j => decide (j.status = .JOB_STOPPED)) := by
        simp [List.filter_cons, hx]
      rw [hf, if_neg hx]
      split
      · exact (ih (n + 1)).cons _
      · exact ih (n + 1)

theorem status_cases (j : job_t) (h : ¬ j.status = .JOB_BACKGROUND) :
    j.status = .JOB_STOPPED := by
  cases hs : j.status with
  | JOB_BACKGROUND => exact absurd hs h
  | JOB_STOPPED => rfl

/-- The walk followed by the bulk removal is the job-by-job description, and the
calls issued are the waits for the Background jobs, in list order. -/
theorem await_all_walk_spec (o : Oracle) (jobs : List job_t) :
    ∀ w : World, (await_all_walk o w jobs).1 = 0 →
      job_list_remove_by_status (await_all_walk o w jobs).2.1 .JOB_BACKGROUND =
        spec_wait_all o w.trace.length jobs ∧
      (await_all_walk o w jobs).2.2.trace = w.trace ++
        (jobs.filter (fun j => decide (j.status = .JOB_BACKGROUND))).map
          (fun j => SysCall.sys_waitpid j.pid) ∧
      (await_all_walk o w jobs).2.2.termFg = w.termFg := by
  induction jobs with
  | nil =>
    intro w _
    simp [await_all_walk, spec_wait_all, job_list_remove_by_status]
  | cons x xs ih =>
    intro w h
    by_cases hx : x.status = .JOB_BACKGROUND
    · have hns : ¬ x.status = .JOB_STOPPED := by simp [hx]
      cases hw : o.waitpidRes w.trace.length with
      | none =>
        simp [await_all_walk, hx, c_waitpid, hw] at h
      | some st =>
        simp only [await_all_walk, hx, if_true, c_waitpid, hw] at h ⊢
        obtain ⟨i1, i2, i3⟩ := ih (w.log (.sys_waitpid x.pid)) h
        have hlen : (w.log (.sys_waitpid x.pid)).trace.length = w.trace.length + 1 := by
          simp [World.log]
        rw [hlen] at i1
        refine ⟨?_, ?_, ?_⟩
        · cases st <;>
            simp [spec_wait_all, hx, hw, WIFSTOPPED, job_list_remove_by_status] <;>
            simpa [job_list_remove_by_status] using i1
        · rw [i2]
          simp [World.log, List.filter_cons, hx]
        · rw [i3]
          rfl
    · have hs := status_cases x hx
      simp only [await_all_walk, hx, if_false] at h ⊢
      obtain ⟨i1, i2, i3⟩ := ih w h
      refine ⟨?_, ?_, i3⟩
      · simp only [spec_wait_all, hs, if_true]
        rw [← i1]
        simp [job_list_remove_by_status, hs]
      · rw [i2]
        simp [List.filter_cons, hx]

theorem await_all_walk_ret (o : Oracle) (h : ∀ k, o.waitpidRes k ≠ none) (jobs : List job_t) :
    ∀ w : World, (await_all_walk o w jobs).1 = 0 := by
  induction jobs with
  | nil =>
    intro w
    rfl
  | cons x xs ih =>
    intro w
    by_cases hx : x.status = .JOB_BACKGROUND
    · cases hw : o.waitpidRes w.trace.length with
      | none => exact absurd hw (h _)
      | some st =>
        simp only [await_all_walk, hx, if_true, c_waitpid, hw]
        exact ih _
    · simp only [await_all_walk, hx, if_false]
      exact ih _

/-- Oracle of the `wait-all` scenario: the first wait reports a normal exit, every
later one a stop by signal 20. -/
def exitThenStopOracle : Oracle :=
  { okOracle .other with
    waitpidRes := fun k => if k = 0 then some (.exited 0) else some (.stopped 20) }

/-! ## Theorems -/

/-- C1. Foreground restore invariant. For every job list: (a) a foreground launch
(last token not `&`, fork returns a child pid) whose terminal transfers succeed,
whatever the wait reports, and (b) `fg` on an in-range index with all calls
succeeding and the wait reporting any status, finish with the shell's own pid as
the terminal's foreground process group, the last call issued being the transfer
to the shell's pid. -/
theorem foreground_restore (o oc : Oracle) (w : World) (jobs : job_list_t)
    (htc : ∀ k, o.tcsetpgrpRes k ≠ -1) :
    (∀ tokens first last, strvec_get tokens 0 = some first →
      strvec_get tokens ((tokens.length : Int) - 1) = some last → last ≠ "&" →
      o.forkRes w.trace.length ≠ -1 → o.forkRes w.trace.length ≠ 0 →
      ∃ jobs1 w1, main_launch o oc w jobs tokens = some (.shell jobs1 w1) ∧
        w1.termFg = o.getpid ∧
        w1.trace = w.trace ++ [.sys_fork, .sys_tcsetpgrp (o.forkRes w.trace.length),
          .sys_waitpid (o.forkRes w.trace.length), .sys_tcsetpgrp o.getpid]) ∧
    (∀ tokens arg job status, tokens.get? 1 = some arg →
      job_list_get jobs (atoi arg) = some job → (∀ k, o.killRes k ≠ -1) →
      o.waitpidRes (w.trace.length + 2) = some status →
      ∃ r, resume_job o w tokens jobs 1 = some r ∧ r.ret = 0 ∧
        r.world.termFg = o.getpid ∧
        r.world.trace = w.trace ++ [.sys_tcsetpgrp job.pid, .sys_kill job.pid .SIGCONT,
          .sys_waitpid job.pid, .sys_tcsetpgrp o.getpid]) := by
  refine ⟨?_, ?_⟩
  · intro tokens first last hf hl hne hf1 hf0
    simp only [main_launch, hf, hl, c_fork, c_tcsetpgrp, c_waitpid, World.log]
    simp only [hne, hf1, hf0, htc, decide_False, if_false, Bool.false_eq_true]
    split
    · exact ⟨_, _, rfl, rfl, by simp⟩
    · exact ⟨_, _, rfl, rfl, by simp⟩
  · intro tokens arg job status ht hj hk hw
    have hrm : (job_list_remove jobs (atoi arg)).1 ≠ -1 := by
      unfold job_list_get at hj
      unfold job_list_remove
      split at hj
      · simp at hj
      · rename_i hneg
        have hlt : (atoi arg).toNat < jobs.length := by
          rcases Nat.lt_or_ge (atoi arg).toNat jobs.length with h | h
          · exact h
          · rw [List.get?_eq_none.mpr h] at hj
            simp at hj
        have h0 : 0 ≤ atoi arg := by omega
        simp [h0, hlt]
    simp only [resume_job, ht, hj, c_tcsetpgrp, c_kill, c_waitpid, World.log]
    simp only [htc, hk, if_false, List.length_append, List.length_singleton, hw]
    by_cases hx : (WIFEXITED status || WIFSIGNALED status) = true
    · simp [hx, hrm]
    · simp [hx]

/-- Witness of C1: `fg 0` on a one-job list with every call succeeding. -/
theorem foreground_restore_witness :
    ∃ r, resume_job (okOracle (.stopped 20)) w0 ["fg", "0"]
        [{ name := "vi", pid := 100, status := .JOB_STOPPED }] 1 = some r ∧ r.ret = 0 ∧
      r.world.termFg = (okOracle (.stopped 20)).getpid ∧
      r.world.trace = w0.trace ++ [.sys_tcsetpgrp 100, .sys_kill 100 .SIGCONT,
        .sys_waitpid 100, .sys_tcsetpgrp (okOracle (.stopped 20)).getpid] :=
  (foreground_restore (okOracle (.stopped 20)) (okOracle (.stopped 20)) w0
    [{ name := "vi", pid := 100, status := .JOB_STOPPED }]
    (by intro k; simp [okOracle])).2 ["fg", "0"] "0"
    { name := "vi", pid := 100, status := .JOB_STOPPED } (.stopped 20) (by rfl) (by decide)
    (by intro k; simp [okOracle]) (by rfl)

/-- C2. On the failing input `fg 0` with the job (pid 100) in the list and
`waitpid` returning `-1`, the function `resume_job` returns `-1` after the transfer
to the job and the continue signal, without a transfer back: the terminal's
foreground process group is still 100, not the shell's pid 1. The same happens
when `kill` returns `-1`. -/
theorem resume_job_wait_error_no_restore :
    resume_job waitFailOracle w0 ["fg", "0"]
        [{ name := "vi", pid := 100, status := .JOB_STOPPED }] 1 =
      some { ret := -1, jobs := [{ name := "vi", pid := 100, status := .JOB_STOPPED }],
             world := { termFg := 100,
                        trace := [.sys_tcsetpgrp 100, .sys_kill 100 .SIGCONT,
                                  .sys_waitpid 100] } } ∧
    resume_job killFailOracle w0 ["fg", "0"]
        [{ name := "vi", pid := 100, status := .JOB_STOPPED }] 1 =
      some { ret := -1, jobs := [{ name := "vi", pid := 100, status := .JOB_STOPPED }],
             world := { termFg := 100,
                        trace := [.sys_tcsetpgrp 100, .sys_kill 100 .SIGCONT] } } ∧
    waitFailOracle.getpid = 1 ∧ killFailOracle.getpid = 1 := by
  decide

/-- C6. On the failing input `wait-for 0` with a Background job whose wait reports
death by signal 9, `await_background_job` returns 0 and the job is still in the
list, with status Background. -/
theorem await_background_job_signaled_not_removed :
    await_background_job (okOracle (.signaled 9)) w0 ["wait-for", "0"]
        [{ name := "sleep", pid := 100, status := .JOB_BACKGROUND }] =
      some { ret := 0, jobs := [{ name := "sleep", pid := 100, status := .JOB_BACKGROUND }],
             world := { termFg := 1, trace := [.sys_waitpid 100] } } := by
  decide

/-- C7. On the failing input `fg 0` with a Background job whose wait reports a
stop, `resume_job` returns 0 and the job is still at index 0, but its status is
still Background, not Stopped. -/
theorem resume_job_stop_keeps_background :
    resume_job (okOracle (.stopped 20)) w0 ["fg", "0"]
        [{ name := "sleep", pid := 100, status := .JOB_BACKGROUND }] 1 =
      some { ret := 0, jobs := [{ name := "sleep", pid := 100, status := .JOB_BACKGROUND }],
             world := { termFg := 1,
                        trace := [.sys_tcsetpgrp 100, .sys_kill 100 .SIGCONT,
                                  .sys_waitpid 100, .sys_tcsetpgrp 1] } } := by
  decide

/-- C8. A job-control request that fails its argument check is rejected
atomically. For every job list and every command whose second token parses to
the index `atoi arg` (the 32-bit value the source reads): (1) when the index is outside `0..length-1`, `resume_job`
(foreground or background) and `await_background_job` return `-1` with the job
list and the world (terminal owner and trace of calls) unchanged; (2) when the
job at the index is Stopped, `await_background_job` does the same. -/
theorem job_control_rejects_atomically (o : Oracle) (w : World) (tokens : strvec_t)
    (jobs : job_list_t) (arg : String) (h : tokens.get? 1 = some arg) :
    ((atoi arg < 0 ∨ (jobs.length : Int) ≤ atoi arg) →
      (∀ is_foreground, resume_job o w tokens jobs is_foreground =
        some { ret := -1, jobs := jobs, world := w }) ∧
      await_background_job o w tokens jobs = some { ret := -1, jobs := jobs, world := w }) ∧
    (∀ job, job_list_get jobs (atoi arg) = some job → job.status = .JOB_STOPPED →
      await_background_job o w tokens jobs = some { ret := -1, jobs := jobs, world := w }) := by
  refine ⟨?_, ?_⟩
  · intro hr
    have hg : job_list_get jobs (atoi arg) = none := by
      unfold job_list_get
      split
      · rfl
      · rename_i hneg
        apply List.get?_eq_none.mpr
        omega
    refine ⟨?_, ?_⟩
    · intro is_foreground
      simp only [resume_job, h, hg]
    · simp only [await_background_job, h, hg]
  · intro job hj hs
    simp only [await_background_job, h, hj, hs]
    simp

/-- Witness of C8: `fg 7`, `bg 7` and `wait-for 7` on a one-job list (index out
of range), and `wait-for 0` on a list whose job 0 is Stopped. -/
theorem job_control_rejects_atomically_witness :
    (resume_job (okOracle .other) w0 ["fg", "7"]
        [{ name := "vi", pid := 100, status := .JOB_STOPPED }] 1 =
      some { ret := -1, jobs := [{ name := "vi", pid := 100, status := .JOB_STOPPED }],
             world := w0 } ∧
    resume_job (okOracle .other) w0 ["fg", "7"]
        [{ name := "vi", pid := 100, status := .JOB_STOPPED }] 0 =
      some { ret := -1, jobs := [{ name := "vi", pid := 100, status := .JOB_STOPPED }],
             world := w0 } ∧
    await_background_job (okOracle .other) w0 ["fg", "7"]
        [{ name := "vi", pid := 100, status := .JOB_STOPPED }] =
      some { ret := -1, jobs := [{ name := "vi", pid := 100, status := .JOB_STOPPED }],
             world := w0 }) ∧
    await_background_job (okOracle .other) w0 ["wait-for", "0"]
        [{ name := "vi", pid := 100, status := .JOB_STOPPED }] =
      some { ret := -1, jobs := [{ name := "vi", pid := 100, status := .JOB_STOPPED }],
             world := w0 } :=
  ⟨⟨((job_control_rejects_atomically (okOracle .other) w0 ["fg", "7"]
        [{ name := "vi", pid := 100, status := .JOB_STOPPED }] "7" (by rfl)).1
        (Or.inr (by decide))).1 1,
    ((job_control_rejects_atomically (okOracle .other) w0 ["fg", "7"]
        [{ name := "vi", pid := 100, status := .JOB_STOPPED }] "7" (by rfl)).1
        (Or.inr (by decide))).1 0,
    ((job_control_rejects_atomically (okOracle .other) w0 ["fg", "7"]
        [{ name := "vi", pid := 100, status := .JOB_STOPPED }] "7" (by rfl)).1
        (Or.inr (by decide))).2⟩,
   (job_control_rejects_atomically (okOracle .other) w0 ["wait-for", "0"]
      [{ name := "vi", pid := 100, status := .JOB_STOPPED }] "0" (by rfl)).2
      { name := "vi", pid := 100, status := .JOB_STOPPED } (by decide) (by decide)⟩

/-- C9. For every job list and every launched command whose fork returns a child
pid: with `&` as last token the parent issues no call after the fork (no wait, no
terminal transfer) and the list gains exactly one job at the tail (the child's
pid, the first token as name, Background), so `sleep 5 &` on the empty list gives
the single job `sleep`; without it, when the wait succeeds, the list gains one
job at the tail (child's pid, first token, Stopped) if the wait reports a stop and
is unchanged if it reports exit or death by signal. -/
theorem launch_records_job (o oc : Oracle) (w : World) (jobs : job_list_t)
    (tokens : strvec_t) (first last : String)
    (hf : strvec_get tokens 0 = some first)
    (hl : strvec_get tokens ((tokens.length : Int) - 1) = some last)
    (h1 : o.forkRes w.trace.length ≠ -1) (h0 : o.forkRes w.trace.length ≠ 0) :
    (last = "&" →
      main_launch o oc w jobs tokens = some (.shell
        (jobs ++ [{ name := first, pid := o.forkRes w.trace.length,
                    status := .JOB_BACKGROUND }])
        { termFg := w.termFg, trace := w.trace ++ [.sys_fork] })) ∧
    (o.forkRes 0 ≠ -1 → o.forkRes 0 ≠ 0 →
      main_launch o oc w0 [] ["sleep", "5", "&"] = some (.shell
        [{ name := "sleep", pid := o.forkRes 0, status := .JOB_BACKGROUND }]
        { termFg := 1, trace := [.sys_fork] })) ∧
    (last ≠ "&" → ∀ status, o.waitpidRes (w.trace.length + 2) = some status →
      ∃ w1, main_launch o oc w jobs tokens = some (.shell
        (match status with
          | .stopped _ => jobs ++ [{ name := first, pid := o.forkRes w.trace.length,
                                     status := .JOB_STOPPED }]
          | .exited _ => jobs
          | .signaled _ => jobs
          | .other => jobs) w1)) := by
  refine ⟨?_, ?_, ?_⟩
  · intro hamp
    simp [main_launch, hf, hl, hamp, c_fork, World.log, h1, h0, job_list_add]
  · intro a b
    simp [main_launch, strvec_get, c_fork, World.log, a, b, job_list_add, w0]
  · intro hamp status hw
    simp only [main_launch, hf, hl, c_fork, c_tcsetpgrp, c_waitpid, World.log]
    simp only [hamp, h1, h0, decide_False, if_false, Bool.false_eq_true,
      List.length_append, List.length_singleton, hw]
    cases status <;> simp [WIFSTOPPED, job_list_add]

/-- Witness of C9: `sleep 5 &` on the empty list, the fork returning pid 100. -/
theorem launch_records_job_witness :
    main_launch (okOracle .other) (okOracle .other) w0 [] ["sleep", "5", "&"] =
      some (.shell [{ name := "sleep", pid := 100, status := .JOB_BACKGROUND }]
        { termFg := 1, trace := [.sys_fork] }) :=
  (launch_records_job (okOracle .other) (okOracle .other) w0 [] ["sleep", "5", "&"]
    "sleep" "&" (by decide) (by decide) (by decide) (by decide)).1 rfl

/-- C3. On the failing input `echo >> a > b`, with every call succeeding,
`run_command` reaches the exec step (the image is replaced) and the argument
vector it passes is `echo >> a`: it contains the redirection operator `>>` and
its filename `a`, and it is not the tokens before the earliest redirection
operator, which are `echo` alone. -/
theorem argv_keeps_append_operator :
    (run_command (okOracle .other) w0 ["echo", ">>", "a", ">", "b"]).outcome = .replaced ∧
    exec_argv (run_command (okOracle .other) w0 ["echo", ">>", "a", ">", "b"]) =
      some ["echo", ">>", "a"] ∧
    (["echo", ">>", "a", ">", "b"] : strvec_t).takeWhile (fun t => !is_redirect t) = ["echo"] ∧
    exec_argv (run_command (okOracle .other) w0 ["echo", ">>", "a", ">", "b"]) ≠
      some ((["echo", ">>", "a", ">", "b"] : strvec_t).takeWhile (fun t => !is_redirect t)) := by
  decide

/-- C10. The array `args` has `MAX_ARGS = 10` slots and the loop has no bounds
check. For every token sequence that reaches the loop with cut point `k` inside
the vector, the stores are at the indices `0, ..., k` in order (the `k` pointers,
then the sentinel at `k`); they are all below 10 if and only if `k ≤ 9`, and the
run is undefined if and only if `10 ≤ k`. Nothing before the loop bounds `k`:
whenever `run_command` gets past its earlier stages with 10 or more tokens before
the cut point, it stores at index 10, outside the array. -/
theorem args_stores_in_bounds_iff (o : Oracle) (w : World) (tokens : strvec_t) :
    (∀ k : Nat, k ≤ tokens.length →
      (exec_args o w tokens (k : Int)).args.stores = List.range (k + 1) ∧
      ((∀ i ∈ (exec_args o w tokens (k : Int)).args.stores, i < MAX_ARGS) ↔ k ≤ 9) ∧
      ((exec_args o w tokens (k : Int)).outcome = .undefined ↔ 10 ≤ k)) ∧
    ((run_command o w tokens).outcome ≠ .returned 1 → 10 ≤ cut_point tokens →
      (run_command o w tokens).outcome = .undefined ∧
      (run_command o w tokens).args.stores = List.range (cut_point tokens + 1) ∧
      MAX_ARGS ∈ (run_command o w tokens).args.stores) := by
  have key : ∀ (w : World) (k : Nat), k ≤ tokens.length →
      (exec_args o w tokens (k : Int)).args.stores = List.range (k + 1) ∧
      ((∀ i ∈ (exec_args o w tokens (k : Int)).args.stores, i < MAX_ARGS) ↔ k ≤ 9) ∧
      ((exec_args o w tokens (k : Int)).outcome = .undefined ↔ 10 ≤ k) := by
    intro w k hk
    have hs := exec_args_stores o w tokens k hk
    refine ⟨hs, ?_, ?_⟩
    · rw [hs]
      have := range_succ_inBounds k
      simp only [List.all_eq_true, decide_eq_true_eq] at this
      rw [this]
      unfold MAX_ARGS
      omega
    · by_cases hn : k < MAX_ARGS
      · have := (exec_args_inside o w tokens k hk hn).1
        rw [this]
        unfold MAX_ARGS at hn
        constructor
        · intro h
          split at h <;> simp at h
        · intro h
          omega
      · have := (exec_args_outside o w tokens k hk hn).1
        rw [this]
        unfold MAX_ARGS at hn
        simp
        omega
  refine ⟨key w, ?_⟩
  intro hne hcut
  rcases run_command_stages o w tokens with h1 | ⟨w3, h3⟩
  · exact absurd h1 hne
  · obtain ⟨ks, _, ku⟩ := key w3 (cut_point tokens) (cut_point_le tokens)
    rw [h3]
    refine ⟨ku.mpr hcut, ks, ?_⟩
    rw [ks]
    unfold MAX_ARGS
    simp only [List.mem_range]
    omega

/-- Witness of C10: ten argument tokens and no redirection operator. -/
theorem args_stores_in_bounds_iff_witness :
    (run_command (okOracle .other) w0
        ["a", "b", "c", "d", "e", "f", "g", "h", "i", "j"]).outcome = .undefined ∧
    (run_command (okOracle .other) w0
        ["a", "b", "c", "d", "e", "f", "g", "h", "i", "j"]).args.stores =
      List.range (cut_point ["a", "b", "c", "d", "e", "f", "g", "h", "i", "j"] + 1) ∧
    MAX_ARGS ∈ (run_command (okOracle .other) w0
        ["a", "b", "c", "d", "e", "f", "g", "h", "i", "j"]).args.stores :=
  (args_stores_in_bounds_iff (okOracle .other) w0
    ["a", "b", "c", "d", "e", "f", "g", "h", "i", "j"]).2 (by decide) (by decide)

/-- C4 as stated fails: for `echo >> a > b`, which contains both operators, `>>`
first, the only file opened for writing is `b` in truncate mode, while the
first-encountered operator is `>>` with file `a` in append mode. -/
theorem first_encountered_append_ignored :
    out_opens (run_command (okOracle .other) w0 ["echo", ">>", "a", ">", "b"]).world.trace =
      [("b", .trunc)] ∧
    spec_first_encountered_output ["echo", ">>", "a", ">", "b"] = some ("a", .append) ∧
    ">" ∈ (["echo", ">>", "a", ">", "b"] : strvec_t) ∧
    ">>" ∈ (["echo", ">>", "a", ">", "b"] : strvec_t) := by
  decide

/-- C4, amended. For every token sequence that contains `>` followed by a
filename (so in particular when it contains both `>` and `>>`, in either order),
`run_command` behaves as if `>` were the only output operator: when it reaches
the exec step, the one file it has opened for writing is the filename following
the first `>`, in truncate mode; on every run it opens at most that file for
writing, and never a file in append mode. -/
theorem output_open_is_first_trunc (o : Oracle) (w : World) (tokens : strvec_t)
    (f : String) (hgt : ">" ∈ tokens)
    (hf : tokens.get? (first_pos tokens ">" + 1) = some f) :
    (out_opens (run_command o w tokens).world.trace = out_opens w.trace ∨
      out_opens (run_command o w tokens).world.trace =
        out_opens w.trace ++ [(f, .trunc)]) ∧
    (((run_command o w tokens).outcome = .replaced ∨
        (run_command o w tokens).outcome = .returned 0) →
      out_opens (run_command o w tokens).world.trace =
        out_opens w.trace ++ [(f, .trunc)]) := by
  have hfind : strvec_find tokens ">" = (first_pos tokens ">" : Int) := by
    rw [strvec_find_eq, if_pos hgt]
  have hge : strvec_find tokens ">" ≥ 0 := (strvec_find_nonneg_iff _ _).mpr hgt
  have hget : strvec_get tokens (strvec_find tokens ">" + 1) = some f := by
    rw [hfind]
    have : ((first_pos tokens ">" : Nat) : Int) + 1 = ((first_pos tokens ">" + 1 : Nat) : Int) := by
      push_cast
      rfl
    rw [this, strvec_get_natCast]
    exact hf
  cases h1 : redirect_input o w tokens tokens.length with
  | error w1 =>
    have e1 := (redirect_input_opens o w tokens tokens.length).2 w1 h1
    simp only [run_command, h1]
    refine ⟨Or.inl e1, ?_⟩
    intro h
    rcases h with h | h <;> simp at h
  | ok r1 =>
    obtain ⟨k1, w1⟩ := r1
    have e1 := (redirect_input_opens o w tokens tokens.length).1 k1 w1 h1
    have hro : redirect_output o w1 tokens k1 =
        open_output o w1 tokens (strvec_find tokens ">") .trunc k1 := by
      simp only [redirect_output, hge, if_true]
    cases h2 : redirect_output o w1 tokens k1 with
    | error w2 =>
      have e2 := (open_output_opens o w1 tokens _ k1 f hget).2 w2 (hro ▸ h2)
      simp only [run_command, h1, h2]
      refine ⟨Or.inr (by rw [e2, e1]), ?_⟩
      intro _
      rw [e2, e1]
    | ok r2 =>
      obtain ⟨k, w2⟩ := r2
      have e2 := (open_output_opens o w1 tokens _ k1 f hget).1 k w2 (hro ▸ h2)
      cases h3 : reset_signals o w2 with
      | error w3 =>
        have e3 := (reset_signals_opens o w2).2 w3 h3
        simp only [run_command, h1, h2, h3]
        refine ⟨Or.inr (by rw [e3, e2, e1]), ?_⟩
        intro _
        rw [e3, e2, e1]
      | ok w3 =>
        have e3 := (reset_signals_opens o w2).1 w3 h3
        simp only [run_command, h1, h2, h3]
        refine ⟨Or.inr (by rw [exec_args_opens, e3, e2, e1]), ?_⟩
        intro _
        rw [exec_args_opens, e3, e2, e1]

/-- Witness of C4 amended: `echo >> a > b` opens `b` in truncate mode. -/
theorem output_open_is_first_trunc_witness :
    out_opens (run_command (okOracle .other) w0 ["echo", ">>", "a", ">", "b"]).world.trace =
      out_opens w0.trace ++ [("b", .trunc)] :=
  (output_open_is_first_trunc (okOracle .other) w0 ["echo", ">>", "a", ">", "b"] "b"
    (by decide) (by decide)).2 (Or.inl (by decide))

/-- C5. For every job list and every assignment of wait outcomes: when all waits
succeed `await_all_background_jobs` returns 0, and whenever it returns 0 the list
afterwards is the job-by-job description `spec_wait_all` (the jobs Stopped
before the call and the Background jobs whose wait reported a stop, the latter
with status Stopped); every job left is Stopped, so none is Background; the jobs
left are, in their original order and with name and pid unchanged, among the
original ones; every job Stopped before the call is left; and the calls issued
are exactly one wait for each job that was Background, in list order. -/
theorem await_all_background_jobs_result (o : Oracle) (w : World) (jobs : job_list_t) :
    ((∀ k, o.waitpidRes k ≠ none) → (await_all_background_jobs o w jobs).ret = 0) ∧
    ((await_all_background_jobs o w jobs).ret = 0 →
      (await_all_background_jobs o w jobs).jobs = spec_wait_all o w.trace.length jobs ∧
      (∀ j ∈ (await_all_background_jobs o w jobs).jobs, j.status = .JOB_STOPPED) ∧
      (((await_all_background_jobs o w jobs).jobs.map (fun j => (j.name, j.pid))).Sublist
        (jobs.map (fun j => (j.name, j.pid)))) ∧
      ((jobs.filter (fun j => decide (j.status = .JOB_STOPPED))).Sublist
        (await_all_background_jobs o w jobs).jobs) ∧
      (await_all_background_jobs o w jobs).world.trace = w.trace ++
        (jobs.filter (fun j => decide (j.status = .JOB_BACKGROUND))).map
          (fun j => SysCall.sys_waitpid j.pid)) := by
  refine ⟨?_, ?_⟩
  · intro h
    have := await_all_walk_ret o h jobs w
    simp [await_all_background_jobs, this]
  · intro h
    have h0 : (await_all_walk o w jobs).1 = 0 := by
      by_cases hc : (await_all_walk o w jobs).1 = -1
      · simp [await_all_background_jobs, hc] at h
      · simp only [await_all_background_jobs, hc, if_false] at h
        by_contra hne
        have hor : ∀ (js : List job_t) (w1 : World),
            (await_all_walk o w1 js).1 = 0 ∨ (await_all_walk o w1 js).1 = -1 := by
          intro js
          induction js with
          | nil =>
            intro w1
            exact Or.inl rfl
          | cons x xs ih =>
            intro w1
            by_cases hx : x.status = .JOB_BACKGROUND
            · cases hw : o.waitpidRes w1.trace.length with
              | none =>
                right
                simp [await_all_walk, hx, c_waitpid, hw]
              | some st =>
                simp only [await_all_walk, hx, if_true, c_waitpid, hw]
                exact ih _
            · simp only [await_all_walk, hx, if_false]
              exact ih _
        rcases hor jobs w with e | e
        · exact hne e
        · exact hc e
    obtain ⟨i1, i2, _⟩ := await_all_walk_spec o jobs w h0
    have hne : ¬ (await_all_walk o w jobs).1 = -1 := by
      rw [h0]
      decide
    have hj : (await_all_background_jobs o w jobs).jobs =
        spec_wait_all o w.trace.length jobs := by
      simp only [await_all_background_jobs, hne, if_false]
      exact i1
    have ht : (await_all_background_jobs o w jobs).world.trace = w.trace ++
        (jobs.filter (fun j => decide (j.status = .JOB_BACKGROUND))).map
          (fun j => SysCall.sys_waitpid j.pid) := by
      simp only [await_all_background_jobs, hne, if_false]
      exact i2
    refine ⟨hj, ?_, ?_, ?_, ht⟩
    · rw [hj]
      exact spec_wait_all_stopped o jobs _
    · rw [hj]
      exact spec_wait_all_sublist o jobs _
    · rw [hj]
      exact spec_wait_all_keeps_stopped o jobs _

/-- Witness of C5: two Background jobs around a Stopped one; the first exits, the
second stops during the wait. -/
theorem await_all_background_jobs_result_witness :
    (await_all_background_jobs exitThenStopOracle w0
        [{ name := "sleep", pid := 100, status := .JOB_BACKGROUND },
         { name := "vi", pid := 101, status := .JOB_STOPPED },
         { name := "cat", pid := 102, status := .JOB_BACKGROUND }]).jobs =
      spec_wait_all exitThenStopOracle w0.trace.length
        [{ name := "sleep", pid := 100, status := .JOB_BACKGROUND },
         { name := "vi", pid := 101, status := .JOB_STOPPED },
         { name := "cat", pid := 102, status := .JOB_BACKGROUND }] ∧
    spec_wait_all exitThenStopOracle w0.trace.length
        [{ name := "sleep", pid := 100, status := .JOB_BACKGROUND },
         { name := "vi", pid := 101, status := .JOB_STOPPED },
         { name := "cat", pid := 102, status := .JOB_BACKGROUND }] =
      [{ name := "vi", pid := 101, status := .JOB_STOPPED },
       { name := "cat", pid := 102, status := .JOB_STOPPED }] :=
  ⟨((await_all_background_jobs_result exitThenStopOracle w0
      [{ name := "sleep", pid := 100, status := .JOB_BACKGROUND },
       { name := "vi", pid := 101, status := .JOB_STOPPED },
       { name := "cat", pid := 102, status := .JOB_BACKGROUND }]).2 (by decide)).1,
    by decide⟩

end Swish
